import Mathlib

/-!
Verification of DNSChat (`main.go`): a request-coalescing TTL cache between
DNS TXT queries and a slow LLM backend, plus a UTF-8-safe response chunker.

The embedding below translates the Go source:
- `chunkString` is modelled over the sequence of UTF-8 character encodings
  that `utf8.DecodeRuneInString` yields: the input is a `List (List Nat)`
  (one nonempty byte list per character), and chunks are byte lists.
- `getCache` / `setCache` become pure functions over a map
  `String → Option cacheEntry` and an explicit clock `now : Nat`
  (Go's `time.Now()`); `(value, found)` becomes `Option String`.
- `getOrCreateLLMRequest` becomes a labelled transition system: each
  mutex-protected critical section (cache read, registry check-and-insert,
  cache write, registry delete, channel close) is one atomic step, and the
  code between them interleaves freely across goroutines.
-/

namespace DNSChat

/-- One loop of Go `chunkString`: scan characters, flushing the buffer as a
completed chunk whenever appending the next character's bytes would push it
over `chunkSize`; the final nonempty buffer is emitted after the loop. -/
def chunkLoop (chunkSize : Nat) : List (List Nat) → List Nat → List (List Nat)
  | [], buf => if buf.length > 0 then [buf] else []
  | c :: cs, buf =>
    if buf.length + c.length > chunkSize then
      buf :: chunkLoop chunkSize cs c
    else
      chunkLoop chunkSize cs (buf ++ c)

/-- Go `chunkString s chunkSize`: `s` is given as its sequence of UTF-8
character encodings (each `utf8.DecodeRuneInString` step yields one nonempty
byte segment); the buffer starts empty. -/
def chunkString (s : List (List Nat)) (chunkSize : Nat) : List (List Nat) :=
  chunkLoop chunkSize s []

theorem chunkLoop_flatten (m : Nat) (cs : List (List Nat)) (buf : List Nat) :
    (chunkLoop m cs buf).flatten = buf ++ cs.flatten := by
  induction cs generalizing buf with
  | nil =>
    by_cases h : buf.length > 0
    · simp [chunkLoop, h]
    · have hb : buf = [] := by simpa using h
      simp [chunkLoop, h, hb]
  | cons c cs ih =>
    by_cases h : buf.length + c.length > m
    · simp [chunkLoop, h, ih]
    · simp [chunkLoop, h, ih]

theorem chunkString_flatten (s : List (List Nat)) (m : Nat) :
    (chunkString s m).flatten = s.flatten := by
  simpa using chunkLoop_flatten m s []

theorem chunkLoop_parts (m : Nat) (cs : List (List Nat)) (bufCs : List (List Nat))
    (h1 : ∀ d ∈ bufCs, d ≠ []) (h2 : ∀ d ∈ cs, d ≠ []) :
    ∃ parts : List (List (List Nat)),
      chunkLoop m cs bufCs.flatten = parts.map List.flatten ∧ parts.flatten = bufCs ++ cs := by
  induction cs generalizing bufCs with
  | nil =>
    by_cases h : bufCs.flatten.length > 0
    · refine ⟨[bufCs], ?_, by simp⟩
      simp only [chunkLoop, List.map_cons, List.map_nil]
      rw [if_pos h]
    · have hflat : bufCs.flatten = [] := by
        cases hfe : bufCs.flatten with
        | nil => rfl
        | cons x xs => rw [hfe] at h; simp at h
      have hb : bufCs = [] := by
        cases bufCs with
        | nil => rfl
        | cons d ds =>
          exfalso
          have hd : d ≠ [] := h1 d (by simp)
          have hnil : d ++ ds.flatten = [] := by simpa using hflat
          exact hd (List.append_eq_nil.mp hnil).1
      exact ⟨[], by simp [chunkLoop, hb]⟩
  | cons c cs ih =>
    by_cases h : bufCs.flatten.length + c.length > m
    · obtain ⟨parts, hmap, hflat⟩ :=
        ih [c] (fun d hd => by rw [List.mem_singleton.mp hd]; exact h2 c (List.mem_cons_self _ _))
          (fun d hd => h2 d (List.mem_cons_of_mem c hd))
      refine ⟨bufCs :: parts, ?_, ?_⟩
      · simp only [chunkLoop, if_pos h, List.map_cons]
        rw [← hmap]
        simp
      · simp [hflat]
    · obtain ⟨parts, hmap, hflat⟩ :=
        ih (bufCs ++ [c])
          (fun d hd => by
            rcases List.mem_append.mp hd with hmem | hmem
            · exact h1 d hmem
            · rw [List.mem_singleton.mp hmem]; exact h2 c (List.mem_cons_self _ _))
          (fun d hd => h2 d (List.mem_cons_of_mem c hd))
      refine ⟨parts, ?_, ?_⟩
      · rw [← hmap]
        simp only [chunkLoop, if_neg h]
        simp
      · simp [hflat]

theorem chunkString_parts (s : List (List Nat)) (m : Nat) (hwf : ∀ c ∈ s, c ≠ []) :
    ∃ parts : List (List (List Nat)),
      chunkString s m = parts.map List.flatten ∧ parts.flatten = s := by
  obtain ⟨parts, hmap, hflat⟩ := chunkLoop_parts m s [] (by simp) hwf
  exact ⟨parts, by simpa [chunkString] using hmap, by simpa using hflat⟩

theorem chunkLoop_size (m : Nat) (s₀ cs : List (List Nat)) (buf : List Nat)
    (hcs : ∀ d ∈ cs, d ∈ s₀) (hbuf : buf.length ≤ m ∨ buf ∈ s₀) :
    ∀ ch ∈ chunkLoop m cs buf, ch.length ≤ m ∨ ch ∈ s₀ := by
  induction cs generalizing buf with
  | nil =>
    intro ch hch
    by_cases h : buf.length > 0 <;> simp [chunkLoop, h] at hch
    subst hch
    exact hbuf
  | cons c cs ih =>
    intro ch hch
    by_cases h : buf.length + c.length > m
    · simp only [chunkLoop, if_pos h, List.mem_cons] at hch
      rcases hch with hch | hch
      · subst hch; exact hbuf
      · exact ih c (fun d hd => hcs d (by simp [hd])) (Or.inr (hcs c (by simp))) ch hch
    · simp only [chunkLoop, if_neg h] at hch
      refine ih (buf ++ c) (fun d hd => hcs d (by simp [hd])) (Or.inl ?_) ch hch
      have := Nat.le_of_not_lt h
      simpa using this

theorem chunkLoop_ne_nil (m : Nat) (cs : List (List Nat)) (buf : List Nat)
    (hcs : ∀ d ∈ cs, d ≠ []) (hbuf : buf ≠ []) :
    ∀ ch ∈ chunkLoop m cs buf, ch ≠ [] := by
  induction cs generalizing buf with
  | nil =>
    intro ch hch
    have h : buf.length > 0 := List.length_pos.mpr hbuf
    simp [chunkLoop, h] at hch
    subst hch
    exact hbuf
  | cons c cs ih =>
    intro ch hch
    by_cases h : buf.length + c.length > m
    · simp only [chunkLoop, if_pos h, List.mem_cons] at hch
      rcases hch with hch | hch
      · subst hch; exact hbuf
      · exact ih c (fun d hd => hcs d (by simp [hd])) (hcs c (by simp)) ch hch
    · simp only [chunkLoop, if_neg h] at hch
      refine ih (buf ++ c) (fun d hd => hcs d (by simp [hd])) ?_ ch hch
      simp [hbuf]

/-- Claim C4: for every input string (given as its sequence of UTF-8
character encodings, each nonempty) and every maxBytes > 0, concatenating the
chunks of `chunkString` in order reproduces the input byte for byte; every
chunk is the concatenation of whole character encodings (no chunk boundary
falls inside a multi-byte character); and the empty input yields `[]`
(zero chunks, not one empty chunk). -/
theorem chunk_roundtrip (s : List (List Nat)) (m : Nat) (hm : 0 < m)
    (hwf : ∀ c ∈ s, c ≠ []) :
    (chunkString s m).flatten = s.flatten ∧
    (∃ parts : List (List (List Nat)),
      chunkString s m = parts.map List.flatten ∧ parts.flatten = s) ∧
    chunkString [] m = [] :=
  ⟨chunkString_flatten s m, chunkString_parts s m hwf, rfl⟩

/-- Claim C4 witness: instantiated at the two-character input "hé" (one
1-byte and one 2-byte character) with maxBytes = 2. -/
theorem chunk_roundtrip_witness :
    (chunkString [[104], [195, 169]] 2).flatten = ([[104], [195, 169]] : List (List Nat)).flatten ∧
    (∃ parts : List (List (List Nat)),
      chunkString [[104], [195, 169]] 2 = parts.map List.flatten ∧
      parts.flatten = [[104], [195, 169]]) ∧
    chunkString [] 2 = [] :=
  chunk_roundtrip [[104], [195, 169]] 2 (by decide) (by decide)

/-- Claim C5: every chunk is at most maxBytes long, except that a chunk
exceeding maxBytes must be exactly one source character whose encoding alone
exceeds maxBytes; and a character's encoded bytes are never split across two
chunks (every chunk is a concatenation of whole characters). -/
theorem chunk_size_bound (s : List (List Nat)) (m : Nat) (hm : 0 < m)
    (hwf : ∀ c ∈ s, c ≠ []) :
    (∀ ch ∈ chunkString s m, ch.length ≤ m ∨ (ch ∈ s ∧ m < ch.length)) ∧
    ∃ parts : List (List (List Nat)),
      chunkString s m = parts.map List.flatten ∧ parts.flatten = s := by
  refine ⟨?_, chunkString_parts s m hwf⟩
  intro ch hch
  have hdisj : ch.length ≤ m ∨ ch ∈ s :=
    chunkLoop_size m s s [] (fun d hd => hd) (Or.inl (by simp)) ch hch
  by_cases hle : ch.length ≤ m
  · exact Or.inl hle
  · rcases hdisj with hd | hd
    · exact Or.inl hd
    · exact Or.inr ⟨hd, Nat.lt_of_not_le hle⟩

/-- Claim C5 witness: a 4-byte character with maxBytes = 2 produces one
oversized single-character chunk; instantiated on "a𝄞b" with maxBytes = 2. -/
theorem chunk_size_bound_witness :
    (∀ ch ∈ chunkString [[97], [240, 157, 132, 158], [98]] 2,
      ch.length ≤ 2 ∨ (ch ∈ [[97], [240, 157, 132, 158], [98]] ∧ 2 < ch.length)) ∧
    ∃ parts : List (List (List Nat)),
      chunkString [[97], [240, 157, 132, 158], [98]] 2 = parts.map List.flatten ∧
      parts.flatten = [[97], [240, 157, 132, 158], [98]] :=
  chunk_size_bound [[97], [240, 157, 132, 158], [98]] 2 (by decide) (by decide)

/-- Claim C10: on a non-empty input whose first character's encoding exceeds
maxBytes, `chunkString` emits an empty first chunk ahead of the oversized
single-character chunk; if the first character fits, every chunk is
non-empty; and in all cases an empty chunk can only be the first element. -/
theorem chunk_empty_first (c : List Nat) (cs : List (List Nat)) (m : Nat)
    (hm : 0 < m) (hwf : ∀ d ∈ c :: cs, d ≠ []) :
    (m < c.length → (chunkString (c :: cs) m).head? = some []) ∧
    (c.length ≤ m → ∀ ch ∈ chunkString (c :: cs) m, ch ≠ []) ∧
    (∀ ch ∈ (chunkString (c :: cs) m).drop 1, ch ≠ []) := by
  have hc : c ≠ [] := hwf c (List.mem_cons_self _ _)
  have hcs : ∀ d ∈ cs, d ≠ [] := fun d hd => hwf d (List.mem_cons_of_mem c hd)
  have hfit : c.length ≤ m → chunkString (c :: cs) m = chunkLoop m cs c := by
    intro hle
    have hnot : ¬ (List.length ([] : List Nat) + c.length > m) := by
      simpa using Nat.not_lt.mpr hle
    simp only [chunkString, chunkLoop]
    rw [if_neg hnot]
    simp
  have hover : m < c.length → chunkString (c :: cs) m = [] :: chunkLoop m cs c := by
    intro hlt
    have hgt : List.length ([] : List Nat) + c.length > m := by simpa using hlt
    simp only [chunkString, chunkLoop]
    rw [if_pos hgt]
  refine ⟨?_, ?_, ?_⟩
  · intro hlt
    rw [hover hlt]
    rfl
  · intro hle
    rw [hfit hle]
    exact chunkLoop_ne_nil m cs c hcs hc
  · intro ch hch
    by_cases hlt : m < c.length
    · rw [hover hlt] at hch
      exact chunkLoop_ne_nil m cs c hcs hc ch (by simpa using hch)
    · have hle : c.length ≤ m := Nat.not_lt.mp hlt
      rw [hfit hle] at hch
      exact chunkLoop_ne_nil m cs c hcs hc ch (List.drop_subset 1 _ hch)

/-- Claim C10 witness: a first character of 3 bytes with maxBytes = 2 yields
an empty first chunk; instantiated on "€a" with maxBytes = 2 (oversized
branch) — the fits-branch and tail conjuncts are instantiated as well. -/
theorem chunk_empty_first_witness :
    (2 < List.length [226, 130, 172] →
      (chunkString [[226, 130, 172], [97]] 2).head? = some []) ∧
    (List.length [226, 130, 172] ≤ 2 →
      ∀ ch ∈ chunkString [[226, 130, 172], [97]] 2, ch ≠ []) ∧
    (∀ ch ∈ (chunkString [[226, 130, 172], [97]] 2).drop 1, ch ≠ []) :=
  chunk_empty_first [226, 130, 172] [[97]] 2 (by decide) (by decide)

/-- Go `cacheEntry`: a cached response with its absolute expiry instant.
Timestamps are naturals (nanoseconds, like Go's monotonic clock reading). -/
structure cacheEntry where
  response : String
  expiresAt : Nat
deriving DecidableEq

/-- The cache map `cache : map[string]cacheEntry`, as a total function to
`Option`. -/
def CacheMap : Type := String → Option cacheEntry

/-- Go `cacheDuration = 1 * time.Hour`, in nanoseconds. -/
def cacheDuration : Nat := 3600000000000

/-- Go `getCache`: look up `q`; found iff an entry exists and `time.Now()`
is strictly before its expiry. The Go pair `(response, ok)` is modelled as
`Option String` (`some response` for `ok = true`). -/
def getCache (cache : CacheMap) (now : Nat) (q : String) : Option String :=
  match cache q with
  | some res => if now < res.expiresAt then some res.response else none
  | none => none

/-- Go `setCache`: unconditionally store `q ↦ {response := res,
expiresAt := time.Now().Add(cacheDuration)}`. -/
def setCache (cache : CacheMap) (now : Nat) (q res : String) : CacheMap :=
  fun k => if k = q then some ⟨res, now + cacheDuration⟩ else cache k

/-- Claim C9: `getCache` reports not-found exactly when no entry exists or
the stored expiry instant is not strictly after the current time (an entry
counts as present only while `now < expiresAt`, and then returns the stored
response); `setCache` stores the value with expiry `now + cacheDuration` and
unconditionally overwrites any prior entry for the key, leaving all other
keys untouched. -/
theorem cache_contract (c : CacheMap) (now : Nat) (q res : String) :
    (getCache c now q = none ↔
      c q = none ∨ ∃ e, c q = some e ∧ e.expiresAt ≤ now) ∧
    (∀ w, getCache c now q = some w ↔
      ∃ e, c q = some e ∧ now < e.expiresAt ∧ w = e.response) ∧
    setCache c now q res q = some ⟨res, now + cacheDuration⟩ ∧
    (∀ k, k ≠ q → setCache c now q res k = c k) := by
  refine ⟨?_, ?_, ?_, ?_⟩
  · cases hc : c q with
    | none => simp [getCache, hc]
    | some e =>
      by_cases ht : now < e.expiresAt
      · simp [getCache, hc, ht, Nat.not_le.mpr ht]
      · simp [getCache, hc, ht, Nat.not_lt.mp ht]
  · intro w
    cases hc : c q with
    | none => simp [getCache, hc]
    | some e =>
      by_cases ht : now < e.expiresAt
      · constructor
        · intro hw
          refine ⟨e, rfl, ht, ?_⟩
          simp [getCache, hc, ht] at hw
          exact hw.symm
        · rintro ⟨e', he', hlt, hw⟩
          cases he'
          simp [getCache, hc, ht, hw]
      · constructor
        · intro hw
          simp [getCache, hc, ht] at hw
        · rintro ⟨e', he', hlt, hw⟩
          cases he'
          exact absurd hlt ht
  · simp [setCache]
  · intro k hk
    simp [setCache, hk]

/-- Claim C9 witness: instantiated at a one-entry cache whose entry for "q"
expires at instant 5, read at instant 5 (expired) with a write of "w". -/
theorem cache_contract_witness :
    (getCache (fun k => if k = "q" then some ⟨"v", 5⟩ else none) 5 "q" = none ↔
      (fun k => if k = "q" then some (⟨"v", 5⟩ : cacheEntry) else none) "q" = none ∨
      ∃ e, (fun k => if k = "q" then some (⟨"v", 5⟩ : cacheEntry) else none) "q" = some e ∧
        e.expiresAt ≤ 5) ∧
    (∀ w, getCache (fun k => if k = "q" then some ⟨"v", 5⟩ else none) 5 "q" = some w ↔
      ∃ e, (fun k => if k = "q" then some (⟨"v", 5⟩ : cacheEntry) else none) "q" = some e ∧
        5 < e.expiresAt ∧ w = e.response) ∧
    setCache (fun k => if k = "q" then some ⟨"v", 5⟩ else none) 5 "q" "w" "q" =
      some ⟨"w", 5 + cacheDuration⟩ ∧
    (∀ k, k ≠ "q" →
      setCache (fun k => if k = "q" then some ⟨"v", 5⟩ else none) 5 "q" "w" k =
      (fun k => if k = "q" then some (⟨"v", 5⟩ : cacheEntry) else none) k) :=
  cache_contract (fun k => if k = "q" then some ⟨"v", 5⟩ else none) 5 "q" "w"

/-- Program points of one goroutine executing `getOrCreateLLMRequest q`.
Each constructor marks the state between two atomic sections of the Go code:
- `start`: about to run `getCache q` (line 134);
- `acquire`: cache missed, about to run the `inFlightMutex` check-and-insert
  section (lines 140-157);
- `join`: follower blocked on `<-ch` (line 146) for channel `ch`;
- `reread`: follower woken, about to re-run `getCache q` (line 147);
- `gen`: leader running `getLLMResponse q` (line 159), holding channel `ch`;
- `commit`: generator succeeded with `v`, about to run `setCache` (line 170);
- `removeSlot`: about to delete `inFlightRequests[q]` (lines 171-173);
- `closeSucc`: about to `close(ch)` on the success path (line 176);
- `closeFail`: generator failed with `e`, about to `close(ch)` (line 163) —
  note the Go error branch closes the channel without deleting the map entry;
- `done`: returned, with the Go `(string, error)` pair as `Except`;
- `idle`: no goroutine at this index. -/
inductive TState where
  | idle
  | start (q : String)
  | acquire (q : String)
  | join (q : String) (ch : Nat)
  | reread (q : String)
  | gen (q : String) (ch : Nat)
  | commit (q : String) (ch : Nat) (v : String)
  | removeSlot (q : String) (ch : Nat) (v : String)
  | closeSucc (q : String) (ch : Nat) (v : String)
  | closeFail (q : String) (ch : Nat) (e : String)
  | done (r : Except String String)

/-- Global shared state: the cache map under `CacheMutex`, the
`inFlightRequests` registry under `inFlightMutex` (each key maps to the
channel of its in-flight request), the closed-flags of all allocated
channels, a fresh-channel counter, the clock, the goroutines, and a ghost
counter of how many times the generator has been invoked per key. -/
structure GState where
  cache : CacheMap
  inFlight : String → Option Nat
  closed : Nat → Bool
  nextCh : Nat
  now : Nat
  threads : Nat → TState
  genCount : String → Nat

/-- Scheduling labels: advance the clock, let goroutine `i` run its next
atomic section, or deliver goroutine `i`'s generator result (success with
`v` / failure with error `e`) — the generator is opaque, so its outcome and
timing are nondeterministic. -/
inductive SLabel where
  | tick (d : Nat)
  | run (i : Nat)
  | genOk (i : Nat) (v : String)
  | genErr (i : Nat) (e : String)

/-- Replace goroutine `i`'s program point, leaving shared state unchanged. -/
def setThread (s : GState) (i : Nat) (t : TState) : GState :=
  { s with threads := fun j => if j = i then t else s.threads j }

/-- One atomic step of the system; `none` means the label is not enabled
(the goroutine is blocked or absent). Each branch is one mutex-protected
section (or channel operation) of `getOrCreateLLMRequest`:
- `start`: `getCache q` under `CacheMutex.RLock` — hit returns immediately,
  miss proceeds to the registry;
- `acquire`: under `inFlightMutex.Lock`, either find the existing channel
  (become follower) or insert a fresh one (become leader; the ghost
  `genCount` records the generator invocation that follows);
- `join`: `<-ch` completes only once the channel is closed;
- `reread`: the follower's second `getCache q` — hit returns the value,
  miss returns `errors.New "upstream generation failed"`;
- `commit`: `setCache q v`;
- `removeSlot`: `delete(inFlightRequests, q)` under `inFlightMutex.Lock`;
- `closeSucc` / `closeFail`: `close(ch)`; the failure branch returns the
  generator's error verbatim and, as in the Go source, does NOT delete the
  registry entry. -/
def stepF : SLabel → GState → Option GState
  | .tick d, s => some { s with now := s.now + d }
  | .run i, s =>
    match s.threads i with
    | .start q =>
      match getCache s.cache s.now q with
      | some v => some (setThread s i (.done (.ok v)))
      | none => some (setThread s i (.acquire q))
    | .acquire q =>
      match s.inFlight q with
      | some ch => some (setThread s i (.join q ch))
      | none =>
        some { setThread s i (.gen q s.nextCh) with
          inFlight := fun k => if k = q then some s.nextCh else s.inFlight k
          nextCh := s.nextCh + 1
          genCount := fun k => if k = q then s.genCount k + 1 else s.genCount k }
    | .join q ch =>
      if s.closed ch then some (setThread s i (.reread q)) else none
    | .reread q =>
      match getCache s.cache s.now q with
      | some v => some (setThread s i (.done (.ok v)))
      | none => some (setThread s i (.done (.error "upstream generation failed")))
    | .commit q ch v =>
      some { setThread s i (.removeSlot q ch v) with cache := setCache s.cache s.now q v }
    | .removeSlot q ch v =>
      some { setThread s i (.closeSucc q ch v) with
        inFlight := fun k => if k = q then none else s.inFlight k }
    | .closeSucc q ch v =>
      some { setThread s i (.done (.ok v)) with
        closed := fun c => if c = ch then true else s.closed c }
    | .closeFail q ch e =>
      some { setThread s i (.done (.error e)) with
        closed := fun c => if c = ch then true else s.closed c }
    | .gen _ _ => none
    | .idle => none
    | .done _ => none
  | .genOk i v, s =>
    match s.threads i with
    | .gen q ch => some (setThread s i (.commit q ch v))
    | _ => none
  | .genErr i e, s =>
    match s.threads i with
    | .gen q ch => some (setThread s i (.closeFail q ch e))
    | _ => none

/-- Reachability: zero or more atomic steps under any schedule. -/
def Reaches (s s' : GState) : Prop :=
  Relation.ReflTransGen (fun a b => ∃ l, stepF l a = some b) s s'

/-- The initial state for a population of callers: goroutine `i` is about to
call `getOrCreateLLMRequest qs[i]`; the cache and the registry are empty, no
channel exists, and the generator has never run. -/
def initState (qs : List String) : GState where
  cache := fun _ => none
  inFlight := fun _ => none
  closed := fun _ => false
  nextCh := 0
  now := 0
  threads := fun i => match qs.get? i with | some q => .start q | none => .idle
  genCount := fun _ => 0

/-- The channel a goroutine holds as the in-flight leader for key `k`: the
leader owns the slot from the registry insert until the registry delete on
the success path, and until the channel close on the failure path (the Go
failure branch never deletes the slot). -/
def ownerCh : TState → String → Option Nat
  | .gen q ch, k => if k = q then some ch else none
  | .commit q ch _, k => if k = q then some ch else none
  | .removeSlot q ch _, k => if k = q then some ch else none
  | .closeFail q ch _, k => if k = q then some ch else none
  | _, _ => none

@[simp] theorem ownerCh_idle (k : String) : ownerCh .idle k = none := rfl

@[simp] theorem ownerCh_start (q k : String) : ownerCh (.start q) k = none := rfl

@[simp] theorem ownerCh_acquire (q k : String) : ownerCh (.acquire q) k = none := rfl

@[simp] theorem ownerCh_join (q : String) (ch : Nat) (k : String) :
    ownerCh (.join q ch) k = none := rfl

@[simp] theorem ownerCh_reread (q k : String) : ownerCh (.reread q) k = none := rfl

@[simp] theorem ownerCh_done (r : Except String String) (k : String) :
    ownerCh (.done r) k = none := rfl

@[simp] theorem ownerCh_gen (q : String) (ch : Nat) (k : String) :
    ownerCh (.gen q ch) k = if k = q then some ch else none := rfl

@[simp] theorem ownerCh_commit (q : String) (ch : Nat) (v k : String) :
    ownerCh (.commit q ch v) k = if k = q then some ch else none := rfl

@[simp] theorem ownerCh_removeSlot (q : String) (ch : Nat) (v k : String) :
    ownerCh (.removeSlot q ch v) k = if k = q then some ch else none := rfl

@[simp] theorem ownerCh_closeSucc (q : String) (ch : Nat) (v k : String) :
    ownerCh (.closeSucc q ch v) k = none := rfl

@[simp] theorem ownerCh_closeFail (q : String) (ch : Nat) (e k : String) :
    ownerCh (.closeFail q ch e) k = if k = q then some ch else none := rfl

@[simp] theorem setThread_threads (s : GState) (i : Nat) (t : TState) (j : Nat) :
    (setThread s i t).threads j = if j = i then t else s.threads j := rfl

@[simp] theorem setThread_inFlight (s : GState) (i : Nat) (t : TState) :
    (setThread s i t).inFlight = s.inFlight := rfl

@[simp] theorem setThread_cache (s : GState) (i : Nat) (t : TState) :
    (setThread s i t).cache = s.cache := rfl

@[simp] theorem setThread_closed (s : GState) (i : Nat) (t : TState) :
    (setThread s i t).closed = s.closed := rfl

@[simp] theorem setThread_nextCh (s : GState) (i : Nat) (t : TState) :
    (setThread s i t).nextCh = s.nextCh := rfl

@[simp] theorem setThread_now (s : GState) (i : Nat) (t : TState) :
    (setThread s i t).now = s.now := rfl

@[simp] theorem setThread_genCount (s : GState) (i : Nat) (t : TState) :
    (setThread s i t).genCount = s.genCount := rfl

/-- The inductive system invariant:
1. a leader's channel is exactly the registry entry for its key;
2. at most one goroutine holds the leader role for a key at any instant
   (the single-flight slot invariant);
3. a leader about to delete the slot has already committed its value to the
   cache;
4. a leader about to fire the completion signal after a success finds the
   cache populated for its key. -/
structure Inv (s : GState) : Prop where
  owner_inFlight : ∀ i q ch, ownerCh (s.threads i) q = some ch → s.inFlight q = some ch
  owner_unique : ∀ i j q ch ch', ownerCh (s.threads i) q = some ch →
    ownerCh (s.threads j) q = some ch' → i = j
  commit_before_remove : ∀ i q ch v, s.threads i = .removeSlot q ch v →
    ∃ exp, s.cache q = some ⟨v, exp⟩
  commit_before_close : ∀ i q ch v, s.threads i = .closeSucc q ch v →
    ∃ e, s.cache q = some e

theorem inv_of_eq (s s' : GState) (h : Inv s) (ht : s'.threads = s.threads)
    (hf : s'.inFlight = s.inFlight) (hc : s'.cache = s.cache) : Inv s' := by
  refine ⟨?_, ?_, ?_, ?_⟩
  · intro i q ch hq
    rw [ht] at hq
    rw [hf]
    exact h.owner_inFlight i q ch hq
  · intro i j q ch ch' hq hq'
    rw [ht] at hq hq'
    exact h.owner_unique i j q ch ch' hq hq'
  · intro i q ch v hq
    rw [ht] at hq
    rw [hc]
    exact h.commit_before_remove i q ch v hq
  · intro i q ch v hq
    rw [ht] at hq
    rw [hc]
    exact h.commit_before_close i q ch v hq

theorem inv_setThread (s : GState) (i : Nat) (t' : TState) (h : Inv s)
    (hown : ∀ q ch, ownerCh t' q = some ch → ownerCh (s.threads i) q = some ch)
    (hrm : ∀ q ch v, t' = .removeSlot q ch v → s.threads i = .removeSlot q ch v)
    (hcs : ∀ q ch v, t' = .closeSucc q ch v → ∃ e, s.cache q = some e) :
    Inv (setThread s i t') := by
  refine ⟨?_, ?_, ?_, ?_⟩
  · intro a q ch hq
    simp only [setThread_threads] at hq
    show s.inFlight q = some ch
    by_cases hai : a = i
    · rw [if_pos hai] at hq
      exact h.owner_inFlight i q ch (hown q ch hq)
    · rw [if_neg hai] at hq
      exact h.owner_inFlight a q ch hq
  · intro a b q ch ch' hqa hqb
    simp only [setThread_threads] at hqa hqb
    by_cases hai : a = i <;> by_cases hbi : b = i
    · rw [hai, hbi]
    · rw [if_pos hai] at hqa
      rw [if_neg hbi] at hqb
      rw [hai]
      exact (h.owner_unique i b q ch ch' (hown q ch hqa) hqb).symm.symm
    · rw [if_neg hai] at hqa
      rw [if_pos hbi] at hqb
      rw [hbi]
      exact h.owner_unique a i q ch ch' hqa (hown q ch' hqb)
    · rw [if_neg hai] at hqa
      rw [if_neg hbi] at hqb
      exact h.owner_unique a b q ch ch' hqa hqb
  · intro a q ch v hq
    simp only [setThread_threads] at hq
    show ∃ exp, s.cache q = some ⟨v, exp⟩
    by_cases hai : a = i
    · rw [if_pos hai] at hq
      exact h.commit_before_remove i q ch v (hrm q ch v hq)
    · rw [if_neg hai] at hq
      exact h.commit_before_remove a q ch v hq
  · intro a q ch v hq
    simp only [setThread_threads] at hq
    show ∃ e, s.cache q = some e
    by_cases hai : a = i
    · rw [if_pos hai] at hq
      exact hcs q ch v hq
    · rw [if_neg hai] at hq
      exact h.commit_before_close a q ch v hq

theorem inv_init (qs : List String) : Inv (initState qs) := by
  refine ⟨?_, ?_, ?_, ?_⟩
  · intro a q ch hq
    cases hg : qs[a]? <;> simp [initState, hg] at hq
  · intro a b q ch ch' hqa hqb
    cases hg : qs[a]? <;> simp [initState, hg] at hqa
  · intro a q ch v hq
    cases hg : qs[a]? <;> simp [initState, hg] at hq
  · intro a q ch v hq
    cases hg : qs[a]? <;> simp [initState, hg] at hq

theorem inv_step (l : SLabel) (s s' : GState) (h : Inv s) (hs : stepF l s = some s') :
    Inv s' := by
  cases l with
  | tick d =>
    simp only [stepF, Option.some.injEq] at hs
    subst hs
    exact inv_of_eq s _ h rfl rfl rfl
  | genOk i v =>
    simp only [stepF] at hs
    split at hs
    case _ q ch heq =>
      simp only [Option.some.injEq] at hs
      subst hs
      refine inv_setThread s i _ h ?_ ?_ ?_
      · intro k ch' hq
        rw [heq]
        simpa using hq
      · intro k ch' v' hq
        simp at hq
      · intro k ch' v' hq
        simp at hq
    case _ => exact absurd hs (by simp)
  | genErr i e =>
    simp only [stepF] at hs
    split at hs
    case _ q ch heq =>
      simp only [Option.some.injEq] at hs
      subst hs
      refine inv_setThread s i _ h ?_ ?_ ?_
      · intro k ch' hq
        rw [heq]
        simpa using hq
      · intro k ch' v' hq
        simp at hq
      · intro k ch' v' hq
        simp at hq
    case _ => exact absurd hs (by simp)
  | run i =>
    simp only [stepF] at hs
    split at hs
    case _ q heq =>
      -- start: getCache hit or miss
      split at hs <;>
        · simp only [Option.some.injEq] at hs
          subst hs
          exact inv_setThread s i _ h (fun k ch hq => by simp at hq)
            (fun k ch v hq => by simp at hq) (fun k ch v hq => by simp at hq)
    case _ q heq =>
      -- acquire: join an existing slot, or insert a fresh one as leader
      split at hs
      case _ ch hif =>
        simp only [Option.some.injEq] at hs
        subst hs
        exact inv_setThread s i _ h (fun k ch' hq => by simp at hq)
          (fun k ch' v hq => by simp at hq) (fun k ch' v hq => by simp at hq)
      case _ hif =>
        simp only [Option.some.injEq] at hs
        subst hs
        have hnoOwner : ∀ a k, ownerCh (s.threads a) q = some k → False := by
          intro a k hq
          have := h.owner_inFlight a q k hq
          rw [hif] at this
          exact Option.noConfusion this
        refine ⟨?_, ?_, ?_, ?_⟩
        · intro a k ch hq
          simp only [setThread_threads] at hq
          by_cases hai : a = i
          · rw [if_pos hai] at hq
            simp only [ownerCh_gen] at hq
            by_cases hkq : k = q
            · subst hkq
              rw [if_pos rfl] at hq
              simp only [Option.some.injEq] at hq
              subst hq
              simpa using (if_pos rfl : (if k = k then some s.nextCh else s.inFlight k) = _)
            · rw [if_neg hkq] at hq
              exact Option.noConfusion hq
          · rw [if_neg hai] at hq
            by_cases hkq : k = q
            · subst hkq
              exact absurd hq (fun hq => hnoOwner a ch hq)
            · show (if k = q then some s.nextCh else s.inFlight k) = some ch
              rw [if_neg hkq]
              exact h.owner_inFlight a k ch hq
        · intro a b k ch ch' hqa hqb
          simp only [setThread_threads] at hqa hqb
          by_cases hai : a = i <;> by_cases hbi : b = i
          · rw [hai, hbi]
          · rw [if_pos hai] at hqa
            rw [if_neg hbi] at hqb
            simp only [ownerCh_gen] at hqa
            by_cases hkq : k = q
            · subst hkq
              exact absurd hqb (fun hqb => hnoOwner b ch' hqb)
            · rw [if_neg hkq] at hqa
              exact Option.noConfusion hqa
          · rw [if_neg hai] at hqa
            rw [if_pos hbi] at hqb
            simp only [ownerCh_gen] at hqb
            by_cases hkq : k = q
            · subst hkq
              exact absurd hqa (fun hqa => hnoOwner a ch hqa)
            · rw [if_neg hkq] at hqb
              exact Option.noConfusion hqb
          · rw [if_neg hai] at hqa
            rw [if_neg hbi] at hqb
            exact h.owner_unique a b k ch ch' hqa hqb
        · intro a k ch v hq
          simp only [setThread_threads] at hq
          by_cases hai : a = i
          · rw [if_pos hai] at hq
            exact absurd hq (by simp)
          · rw [if_neg hai] at hq
            exact h.commit_before_remove a k ch v hq
        · intro a k ch v hq
          simp only [setThread_threads] at hq
          by_cases hai : a = i
          · rw [if_pos hai] at hq
            exact absurd hq (by simp)
          · rw [if_neg hai] at hq
            exact h.commit_before_close a k ch v hq
    case _ q ch heq =>
      -- join: proceeds only once the channel is closed
      split at hs
      · simp only [Option.some.injEq] at hs
        subst hs
        exact inv_setThread s i _ h (fun k ch' hq => by simp at hq)
          (fun k ch' v hq => by simp at hq) (fun k ch' v hq => by simp at hq)
      · exact absurd hs (by simp)
    case _ q heq =>
      -- reread: hit or miss after the wakeup
      split at hs <;>
        · simp only [Option.some.injEq] at hs
          subst hs
          exact inv_setThread s i _ h (fun k ch hq => by simp at hq)
            (fun k ch v hq => by simp at hq) (fun k ch v hq => by simp at hq)
    case _ q ch v heq =>
      -- commit: setCache, then move to the registry delete
      simp only [Option.some.injEq] at hs
      subst hs
      have howni : ownerCh (s.threads i) q = some ch := by rw [heq]; simp
      refine ⟨?_, ?_, ?_, ?_⟩
      · intro a k ch' hq
        simp only [setThread_threads] at hq
        show s.inFlight k = some ch'
        by_cases hai : a = i
        · rw [if_pos hai] at hq
          refine h.owner_inFlight i k ch' ?_
          rw [heq]
          simpa using hq
        · rw [if_neg hai] at hq
          exact h.owner_inFlight a k ch' hq
      · intro a b k ch' ch'' hqa hqb
        simp only [setThread_threads] at hqa hqb
        by_cases hai : a = i <;> by_cases hbi : b = i
        · rw [hai, hbi]
        · rw [if_pos hai] at hqa
          rw [if_neg hbi] at hqb
          rw [hai]
          refine (h.owner_unique b i k ch'' ch' hqb ?_).symm
          rw [heq]
          simpa using hqa
        · rw [if_neg hai] at hqa
          rw [if_pos hbi] at hqb
          rw [hbi]
          refine h.owner_unique a i k ch' ch'' hqa ?_
          rw [heq]
          simpa using hqb
        · rw [if_neg hai] at hqa
          rw [if_neg hbi] at hqb
          exact h.owner_unique a b k ch' ch'' hqa hqb
      · intro a k ch' v' hq
        simp only [setThread_threads] at hq
        by_cases hai : a = i
        · rw [if_pos hai] at hq
          cases hq
          show ∃ exp, setCache s.cache s.now q v q = some ⟨v, exp⟩
          exact ⟨s.now + cacheDuration, by simp [setCache]⟩
        · rw [if_neg hai] at hq
          show ∃ exp, setCache s.cache s.now q v k = some ⟨v', exp⟩
          by_cases hkq : k = q
          · subst hkq
            have howna : ownerCh (s.threads a) k = some ch' := by rw [hq]; simp
            exact absurd (h.owner_unique a i k ch' ch howna howni) hai
          · obtain ⟨exp, hexp⟩ := h.commit_before_remove a k ch' v' hq
            exact ⟨exp, by simpa [setCache, hkq] using hexp⟩
      · intro a k ch' v' hq
        simp only [setThread_threads] at hq
        by_cases hai : a = i
        · rw [if_pos hai] at hq
          exact absurd hq (by simp)
        · rw [if_neg hai] at hq
          show ∃ e, setCache s.cache s.now q v k = some e
          by_cases hkq : k = q
          · exact ⟨⟨v, s.now + cacheDuration⟩, by simp [setCache, hkq]⟩
          · obtain ⟨e, he⟩ := h.commit_before_close a k ch' v' hq
            exact ⟨e, by simpa [setCache, hkq] using he⟩
    case _ q ch v heq =>
      -- removeSlot: delete the registry entry, then move to the close
      simp only [Option.some.injEq] at hs
      subst hs
      have howni : ownerCh (s.threads i) q = some ch := by rw [heq]; simp
      refine ⟨?_, ?_, ?_, ?_⟩
      · intro a k ch' hq
        simp only [setThread_threads] at hq
        by_cases hai : a = i
        · rw [if_pos hai] at hq
          simp at hq
        · rw [if_neg hai] at hq
          show (if k = q then none else s.inFlight k) = some ch'
          by_cases hkq : k = q
          · subst hkq
            exact absurd (h.owner_unique a i k ch' ch hq howni) hai
          · rw [if_neg hkq]
            exact h.owner_inFlight a k ch' hq
      · intro a b k ch' ch'' hqa hqb
        simp only [setThread_threads] at hqa hqb
        by_cases hai : a = i
        · rw [if_pos hai] at hqa
          simp at hqa
        · rw [if_neg hai] at hqa
          by_cases hbi : b = i
          · rw [if_pos hbi] at hqb
            simp at hqb
          · rw [if_neg hbi] at hqb
            exact h.owner_unique a b k ch' ch'' hqa hqb
      · intro a k ch' v' hq
        simp only [setThread_threads] at hq
        by_cases hai : a = i
        · rw [if_pos hai] at hq
          exact absurd hq (by simp)
        · rw [if_neg hai] at hq
          exact h.commit_before_remove a k ch' v' hq
      · intro a k ch' v' hq
        simp only [setThread_threads] at hq
        by_cases hai : a = i
        · rw [if_pos hai] at hq
          cases hq
          obtain ⟨exp, hexp⟩ := h.commit_before_remove i q ch v heq
          exact ⟨⟨v, exp⟩, hexp⟩
        · rw [if_neg hai] at hq
          exact h.commit_before_close a k ch' v' hq
    case _ q ch v heq =>
      -- closeSucc: fire the completion signal after success
      simp only [Option.some.injEq] at hs
      subst hs
      refine inv_of_eq (setThread s i (.done (.ok v))) _ ?_ rfl rfl rfl
      refine inv_setThread s i _ h (fun k ch' hq => by simp at hq)
        (fun k ch' v' hq => by simp at hq) (fun k ch' v' hq => by simp at hq)
    case _ q ch e heq =>
      -- closeFail: fire the completion signal after failure (slot kept)
      simp only [Option.some.injEq] at hs
      subst hs
      refine inv_of_eq (setThread s i (.done (.error e))) _ ?_ rfl rfl rfl
      refine inv_setThread s i _ h (fun k ch' hq => by simp at hq)
        (fun k ch' v' hq => by simp at hq) (fun k ch' v' hq => by simp at hq)
    case _ heq => exact absurd hs (by simp)
    case _ heq => exact absurd hs (by simp)
    case _ r heq => exact absurd hs (by simp)

theorem inv_reachable (qs : List String) (s : GState)
    (h : Reaches (initState qs) s) : Inv s := by
  induction h with
  | refl => exact inv_init qs
  | tail hab hbc ih =>
    obtain ⟨l, hl⟩ := hbc
    exact inv_step l _ _ ih hl

/-- Claim C3 (amended): in every reachable state, at most one goroutine
holds the leader role (the coalescing slot) for any key — two concurrent
requesters can never simultaneously be Leader for the same key, because the
registry check-then-insert is a single atomic critical section — and a
leader's channel is exactly the registry entry for its key (so at most one
slot exists per key, the registry being a map). The unqualified
"generator invoked exactly once" claim fails: see the counterexample. -/
theorem single_leader_per_key (qs : List String) (s : GState)
    (h : Reaches (initState qs) s) :
    (∀ i j q ch ch', ownerCh (s.threads i) q = some ch →
      ownerCh (s.threads j) q = some ch' → i = j) ∧
    (∀ i q ch, ownerCh (s.threads i) q = some ch → s.inFlight q = some ch) :=
  ⟨(inv_reachable qs s h).owner_unique, (inv_reachable qs s h).owner_inFlight⟩

/-- Claim C3 amended witness: instantiated at the initial single-caller
state, reachable in zero steps. -/
theorem single_leader_per_key_witness :
    (∀ i j q ch ch', ownerCh ((initState ["q"]).threads i) q = some ch →
      ownerCh ((initState ["q"]).threads j) q = some ch' → i = j) ∧
    (∀ i q ch, ownerCh ((initState ["q"]).threads i) q = some ch →
      (initState ["q"]).inFlight q = some ch) :=
  single_leader_per_key ["q"] (initState ["q"]) Relation.ReflTransGen.refl

/-- Interleaving refuting strict single-flight: two concurrent callers of
`getOrCreateLLMRequest "q"` starting from an empty cache. Caller 1's cache
read misses before caller 0 commits, and caller 1 reaches the registry after
caller 0 has deleted the slot but before caller 0 returns. -/
def raceS0 : GState := initState ["q", "q"]

/-- Caller 0 misses the cache. -/
def raceS1 : GState := (stepF (.run 0) raceS0).getD raceS0

/-- Caller 1 misses the cache (nothing committed yet). -/
def raceS2 : GState := (stepF (.run 1) raceS1).getD raceS1

/-- Caller 0 inserts a slot and becomes leader: first generator call. -/
def raceS3 : GState := (stepF (.run 0) raceS2).getD raceS2

/-- Caller 0's generator succeeds with "v". -/
def raceS4 : GState := (stepF (.genOk 0 "v") raceS3).getD raceS3

/-- Caller 0 commits "v" to the cache. -/
def raceS5 : GState := (stepF (.run 0) raceS4).getD raceS4

/-- Caller 0 deletes the slot from the registry. -/
def raceS6 : GState := (stepF (.run 0) raceS5).getD raceS5

/-- Caller 1 reaches the registry: finds no slot, becomes a second leader —
the generator is invoked a second time while caller 0 has not returned. -/
def raceS7 : GState := (stepF (.run 1) raceS6).getD raceS6

/-- Claim C3 counterexample: two concurrent `Resolve("q")` calls issued
while no cache entry for "q" exists (the cache starts empty) can drive the
generator twice: in the reachable state `raceS7` the ghost invocation count
for "q" is 2, while caller 0 is still inside its own call (at the
signal-fire point). Strict "invoked exactly once" is therefore false,
though the two callers were never simultaneously Leader. -/
theorem single_flight_counterexample :
    Reaches (initState ["q", "q"]) raceS7 ∧
    (initState ["q", "q"]).cache "q" = none ∧
    (initState ["q", "q"]).genCount "q" = 0 ∧
    raceS7.genCount "q" = 2 ∧
    raceS7.threads 0 = .closeSucc "q" 0 "v" ∧
    raceS7.threads 1 = .gen "q" 1 := by
  refine ⟨?_, rfl, rfl, rfl, rfl, rfl⟩
  exact Relation.ReflTransGen.head ⟨.run 0, rfl⟩
    (Relation.ReflTransGen.head ⟨.run 1, rfl⟩
      (Relation.ReflTransGen.head ⟨.run 0, rfl⟩
        (Relation.ReflTransGen.head ⟨.genOk 0 "v", rfl⟩
          (Relation.ReflTransGen.head ⟨.run 0, rfl⟩
            (Relation.ReflTransGen.head ⟨.run 0, rfl⟩
              (Relation.ReflTransGen.head ⟨.run 1, rfl⟩
                Relation.ReflTransGen.refl))))))

/-- Claim C6: in every reachable state, a leader that has arrived at the
registry-delete point already has its value committed in the cache, and a
leader at the signal-fire point (success path) finds the cache populated
for its key — the cache write is fully committed before the slot is removed
and before the completion signal fires. Moreover a follower that re-reads
while the entry is unexpired obtains exactly the committed value. -/
theorem leader_commit_order (qs : List String) (s : GState)
    (h : Reaches (initState qs) s) :
    (∀ i q ch v, s.threads i = .removeSlot q ch v → ∃ exp, s.cache q = some ⟨v, exp⟩) ∧
    (∀ i q ch v, s.threads i = .closeSucc q ch v → ∃ e, s.cache q = some e) ∧
    (∀ j q e, s.threads j = .reread q → s.cache q = some e → s.now < e.expiresAt →
      stepF (.run j) s = some (setThread s j (.done (.ok e.response)))) := by
  refine ⟨(inv_reachable qs s h).commit_before_remove,
    (inv_reachable qs s h).commit_before_close, ?_⟩
  intro j q e hj hc ht
  have hg : getCache s.cache s.now q = some e.response := by
    simp [getCache, hc, ht]
  simp [stepF, hj, hg]

/-- Success-path trace for one caller of `getOrCreateLLMRequest "w"`, run to
the signal-fire point, used to instantiate the C6 theorem. -/
def okS0 : GState := initState ["w"]

/-- Cache miss. -/
def okS1 : GState := (stepF (.run 0) okS0).getD okS0

/-- Slot inserted, caller 0 is leader. -/
def okS2 : GState := (stepF (.run 0) okS1).getD okS1

/-- Generator succeeds with "v". -/
def okS3 : GState := (stepF (.genOk 0 "v") okS2).getD okS2

/-- Value committed to the cache. -/
def okS4 : GState := (stepF (.run 0) okS3).getD okS3

/-- Slot deleted; caller 0 is about to fire the signal. -/
def okS5 : GState := (stepF (.run 0) okS4).getD okS4

theorem okS5_reachable : Reaches (initState ["w"]) okS5 :=
  Relation.ReflTransGen.head ⟨.run 0, rfl⟩
    (Relation.ReflTransGen.head ⟨.run 0, rfl⟩
      (Relation.ReflTransGen.head ⟨.genOk 0 "v", rfl⟩
        (Relation.ReflTransGen.head ⟨.run 0, rfl⟩
          (Relation.ReflTransGen.head ⟨.run 0, rfl⟩
            Relation.ReflTransGen.refl))))

/-- Claim C6 witness: instantiated at the success-path state `okS5`, in
which caller 0 stands at the signal-fire point with the cache committed. -/
theorem leader_commit_order_witness :
    (∀ i q ch v, okS5.threads i = .removeSlot q ch v →
      ∃ exp, okS5.cache q = some ⟨v, exp⟩) ∧
    (∀ i q ch v, okS5.threads i = .closeSucc q ch v → ∃ e, okS5.cache q = some e) ∧
    (∀ j q e, okS5.threads j = .reread q → okS5.cache q = some e →
      okS5.now < e.expiresAt →
      stepF (.run j) okS5 = some (setThread okS5 j (.done (.ok e.response)))) :=
  leader_commit_order ["w"] okS5 okS5_reachable

/-- Claim C7: a follower blocked on the channel cannot proceed until the
completion signal fires; once it has fired, the follower wakes and re-reads
the cache: if an entry is present it returns that value as success, and if
absent it returns exactly `errors.New "upstream generation failed"` — a
generic coalescing failure carrying no detail of the leader's error. -/
theorem follower_wake_and_reread (s : GState) (i : Nat) (q : String) (ch : Nat)
    (hj : s.threads i = .join q ch) :
    (s.closed ch = false → stepF (.run i) s = none) ∧
    (s.closed ch = true →
      stepF (.run i) s = some (setThread s i (.reread q)) ∧
      ∀ s', stepF (.run i) s = some s' →
        ((∃ v, getCache s'.cache s'.now q = some v ∧
            stepF (.run i) s' = some (setThread s' i (.done (.ok v)))) ∨
         (getCache s'.cache s'.now q = none ∧
            stepF (.run i) s' = some
              (setThread s' i (.done (.error "upstream generation failed")))))) := by
  constructor
  · intro hcl
    simp [stepF, hj, hcl]
  · intro hcl
    have h1 : stepF (.run i) s = some (setThread s i (.reread q)) := by
      simp [stepF, hj, hcl]
    refine ⟨h1, ?_⟩
    intro s' hs'
    rw [h1] at hs'
    simp only [Option.some.injEq] at hs'
    subst hs'
    simp only [setThread_cache, setThread_now]
    cases hg : getCache s.cache s.now q with
    | some v =>
      refine Or.inl ⟨v, rfl, ?_⟩
      simp [stepF, hg]
    | none =>
      refine Or.inr ⟨rfl, ?_⟩
      simp [stepF, hg]

/-- A concrete state with one follower parked on the already-closed channel
0 for key "q" and an empty cache, used to instantiate the C7 theorem. -/
def joinState : GState where
  cache := fun _ => none
  inFlight := fun k => if k = "q" then some 0 else none
  closed := fun _ => true
  nextCh := 1
  now := 0
  threads := fun i => if i = 0 then .join "q" 0 else .idle
  genCount := fun _ => 1

/-- Claim C7 witness: instantiated at `joinState`. -/
theorem follower_wake_and_reread_witness :
    (joinState.closed 0 = false → stepF (.run 0) joinState = none) ∧
    (joinState.closed 0 = true →
      stepF (.run 0) joinState = some (setThread joinState 0 (.reread "q")) ∧
      ∀ s', stepF (.run 0) joinState = some s' →
        ((∃ v, getCache s'.cache s'.now "q" = some v ∧
            stepF (.run 0) s' = some (setThread s' 0 (.done (.ok v)))) ∨
         (getCache s'.cache s'.now "q" = none ∧
            stepF (.run 0) s' = some
              (setThread s' 0 (.done (.error "upstream generation failed")))))) :=
  follower_wake_and_reread joinState 0 "q" 0 rfl

/-- Claim C8: a caller whose initial `getCache` finds a fresh entry returns
that cached value immediately: its one atomic step ends the call with the
cached value, and it neither touches the in-flight registry nor invokes the
generator (and leaves the cache unchanged) — a fresh hit never reaches the
coalescer. -/
theorem fresh_hit_no_generation (s : GState) (i : Nat) (q v : String)
    (hth : s.threads i = .start q)
    (hfresh : getCache s.cache s.now q = some v) :
    stepF (.run i) s = some (setThread s i (.done (.ok v))) ∧
    ∀ s', stepF (.run i) s = some s' →
      s'.genCount = s.genCount ∧ s'.inFlight = s.inFlight ∧ s'.cache = s.cache ∧
      s'.threads i = .done (.ok v) := by
  have h1 : stepF (.run i) s = some (setThread s i (.done (.ok v))) := by
    simp [stepF, hth, hfresh]
  refine ⟨h1, ?_⟩
  intro s' hs'
  rw [h1] at hs'
  simp only [Option.some.injEq] at hs'
  subst hs'
  exact ⟨rfl, rfl, rfl, by simp⟩

/-- A concrete state whose cache holds a fresh entry for "q" (now = 3,
expiry 10) with caller 0 about to resolve "q", used to instantiate C8. -/
def hitState : GState where
  cache := fun k => if k = "q" then some ⟨"v", 10⟩ else none
  inFlight := fun _ => none
  closed := fun _ => false
  nextCh := 0
  now := 3
  threads := fun i => if i = 0 then .start "q" else .idle
  genCount := fun _ => 1

/-- Claim C8 witness: instantiated at `hitState`. -/
theorem fresh_hit_no_generation_witness :
    stepF (.run 0) hitState = some (setThread hitState 0 (.done (.ok "v"))) ∧
    ∀ s', stepF (.run 0) hitState = some s' →
      s'.genCount = hitState.genCount ∧ s'.inFlight = hitState.inFlight ∧
      s'.cache = hitState.cache ∧ s'.threads 0 = .done (.ok "v") :=
  fresh_hit_no_generation hitState 0 "q" "v" rfl rfl

/-- Failure-path trace for one caller of `getOrCreateLLMRequest "q"`: the
generator fails, the channel is closed, but — as in the Go source — the
registry entry is never deleted. -/
def slotS0 : GState := initState ["q"]

/-- Cache miss. -/
def slotS1 : GState := (stepF (.run 0) slotS0).getD slotS0

/-- Slot inserted, caller 0 is leader. -/
def slotS2 : GState := (stepF (.run 0) slotS1).getD slotS1

/-- Generator fails with "boom". -/
def slotS3 : GState := (stepF (.genErr 0 "boom") slotS2).getD slotS2

/-- Channel closed; caller 0 returns the error — without deleting the slot. -/
def slotS4 : GState := (stepF (.run 0) slotS3).getD slotS3

/-- Claim C2 exhibit: after the leader's failed generation attempt has fully
completed (caller 0 has returned `error "boom"` and the completion signal
has fired), the coalescing slot for "q" is still present in the registry
(`inFlight "q" = some 0`): the Go failure branch closes the channel but
never executes `delete(inFlightRequests, q)`, so the key does not return to
the Idle no-slot state required by the claim. -/
theorem slot_not_removed_on_failure :
    Reaches (initState ["q"]) slotS4 ∧
    slotS4.threads 0 = .done (.error "boom") ∧
    slotS4.closed 0 = true ∧
    slotS4.inFlight "q" = some 0 := by
  refine ⟨?_, rfl, rfl, rfl⟩
  exact Relation.ReflTransGen.head ⟨.run 0, rfl⟩
    (Relation.ReflTransGen.head ⟨.run 0, rfl⟩
      (Relation.ReflTransGen.head ⟨.genErr 0 "boom", rfl⟩
        (Relation.ReflTransGen.head ⟨.run 0, rfl⟩
          Relation.ReflTransGen.refl)))

/-- Failure-then-retry trace: caller 0's generator fails and caller 0
completes; afterwards caller 1 issues a fresh `getOrCreateLLMRequest "q"`
(every step of caller 1 comes after caller 0 has returned). -/
def failS0 : GState := initState ["q", "q"]

/-- Caller 0 misses the cache. -/
def failS1 : GState := (stepF (.run 0) failS0).getD failS0

/-- Caller 0 inserts the slot and becomes leader (generator invoked once). -/
def failS2 : GState := (stepF (.run 0) failS1).getD failS1

/-- Caller 0's generator fails with "boom". -/
def failS3 : GState := (stepF (.genErr 0 "boom") failS2).getD failS2

/-- Caller 0 closes the channel and returns the error; slot left behind. -/
def failS4 : GState := (stepF (.run 0) failS3).getD failS3

/-- Caller 1 (a subsequent call) misses the cache — nothing was cached. -/
def failS5 : GState := (stepF (.run 1) failS4).getD failS4

/-- Caller 1 finds the stale slot and joins it as a follower. -/
def failS6 : GState := (stepF (.run 1) failS5).getD failS5

/-- The stale channel is already closed, so caller 1 wakes immediately. -/
def failS7 : GState := (stepF (.run 1) failS6).getD failS6

/-- Caller 1 re-reads the cache, misses, and returns the generic failure. -/
def failS8 : GState := (stepF (.run 1) failS7).getD failS7

/-- Claim C1 exhibit: after a failed `Resolve("q")`, no cache entry is
written (that half of the claim holds), but a subsequent call does NOT
invoke the generator afresh: caller 1, running entirely after caller 0
returned its error, joins the stale slot left behind by the failure path,
finds the channel already closed, re-reads the empty cache and returns
`error "upstream generation failed"` — the ghost invocation count stays at
1, so no new generation attempt is triggered and the failure is replayed. -/
theorem failure_replayed_not_regenerated :
    Reaches (initState ["q", "q"]) failS8 ∧
    failS8.threads 0 = .done (.error "boom") ∧
    failS8.cache "q" = none ∧
    failS8.threads 1 = .done (.error "upstream generation failed") ∧
    failS8.genCount "q" = 1 := by
  refine ⟨?_, rfl, rfl, rfl, rfl⟩
  exact Relation.ReflTransGen.head ⟨.run 0, rfl⟩
    (Relation.ReflTransGen.head ⟨.run 0, rfl⟩
      (Relation.ReflTransGen.head ⟨.genErr 0 "boom", rfl⟩
        (Relation.ReflTransGen.head ⟨.run 0, rfl⟩
          (Relation.ReflTransGen.head ⟨.run 1, rfl⟩
            (Relation.ReflTransGen.head ⟨.run 1, rfl⟩
              (Relation.ReflTransGen.head ⟨.run 1, rfl⟩
                (Relation.ReflTransGen.head ⟨.run 1, rfl⟩
                  Relation.ReflTransGen.refl)))))))

end DNSChat
